import Mathlib

/-!
Verification of the deduplication engine in
`redditdownloader/processing/post_processing.py`.

The Python source is shallowly embedded: pure helpers become Lean
functions, the SQL record store becomes an explicit `DB` value, the
filesystem becomes an explicit association list of stored paths, and
fallible operations return `Option`.  External collaborators (PIL,
hashlib, the `sql` module's `Hash.split_hash`) are modelled at their
interface, as noted on each definition.
-/

set_option maxRecDepth 4000

/-! ## FileHasher: the difference hash (`FileHasher._dhash`) -/

/-- One lowercase hexadecimal digit character (0-9, a-f). -/
def hexChar (n : Nat) : Char :=
  if n < 10 then Char.ofNat (48 + n) else Char.ofNat (87 + n)

/-- Python `hex(v)[2:]` for a nonnegative `v`: lowercase hex digits,
no leading zeros (a single digit for `v < 16`). `Nat.toDigits 16`
produces exactly these characters. -/
def pyHex (v : Nat) : String :=
  String.mk (Nat.toDigits 16 v)

/-- Python `s.rjust(2, chr 48)`: left-pad with zero characters to width 2. -/
def rjust2 (s : String) : String :=
  if 2 ≤ s.length then s else String.mk (List.replicate (2 - s.length) (hexChar 0)) ++ s

/-- `hex(decimal_value)[2:].rjust(2, ...)` from `FileHasher._dhash`. -/
def hexByte (v : Nat) : String :=
  rjust2 (pyHex v)

/-- The two-hex-digit rendering of a byte, high nibble first.  Used on the
specification side; equal to `hexByte` below 256 (`hexByte_eq_hexPair`). -/
def hexPair (v : Nat) : String :=
  String.mk [hexChar (v / 16), hexChar (v % 16)]

/-- The `difference` list of `FileHasher._dhash`: row-major, for each of the
`hash_size` rows and each of the `hash_size` columns, whether the pixel is
strictly brighter than its immediate right neighbour.  `pix col row` is the
grayscale value of the `(hash_size + 1) x hash_size` downscaled grid, i.e.
the result of `image.convert(...).resize(...)` (PIL, external) at `(col, row)`. -/
def diffBits (pix : Nat → Nat → Nat) (hash_size : Nat) : List Bool :=
  (List.range hash_size).flatMap (fun row =>
    (List.range hash_size).map (fun col => decide (pix col row > pix (col + 1) row)))

/-- The packing loop of `FileHasher._dhash`, carried state made explicit:
`index` is the enumeration counter, `dv` is `decimal_value`, `acc` is
`hex_string`.  On each bit: if set, add `2 ^ (index % 8)`; after every
eighth bit append the two-hex-digit byte and reset `decimal_value`. -/
def packBitsAux : List Bool → Nat → Nat → List String → List String
  | [], _, _, acc => acc
  | value :: rest, index, dv, acc =>
    let dv2 := if value then dv + 2 ^ (index % 8) else dv
    if index % 8 = 7 then
      packBitsAux rest (index + 1) 0 (acc ++ [hexByte dv2])
    else
      packBitsAux rest (index + 1) dv2 acc

/-- `FileHasher._dhash`: difference bits, packed 8 at a time, joined. -/
def dhash (pix : Nat → Nat → Nat) (hash_size : Nat := 8) : String :=
  String.join (packBitsAux (diffBits pix hash_size) 0 0 [])

/-- `FileHasher.hamming_distance`: 9999 for strings of different lengths,
otherwise the number of positions where the characters differ. -/
def hamming_distance (s1 s2 : String) : Nat :=
  if s1.length ≠ s2.length then 9999
  else ((s1.toList.zip s2.toList).countP (fun p => p.1 ≠ p.2))

/-! Specification-side packing definitions (for comparison with `dhash`). -/

/-- Byte value of a bit group read least-significant-bit first:
the bit at input position `i` contributes `2 ^ i`. -/
def byteLsb : List Bool → Nat
  | [] => 0
  | b :: bs => (if b then 1 else 0) + 2 * byteLsb bs

/-- Byte value of a bit group read most-significant-bit first (as the
spec sentence describes): the first input bit lands in the high bit. -/
def byteMsb (bs : List Bool) : Nat :=
  bs.foldl (fun acc b => 2 * acc + (if b then 1 else 0)) 0

/-- Split a bit sequence into successive groups of 8 (a shorter final
group if the length is not a multiple of 8). -/
def chunks8 : List Bool → List (List Bool)
  | [] => []
  | b0 :: b1 :: b2 :: b3 :: b4 :: b5 :: b6 :: b7 :: rest =>
      [b0, b1, b2, b3, b4, b5, b6, b7] :: chunks8 rest
  | l => [l]

/-- The hash the claim sentence describes: same per-row right-neighbour
comparisons, but each group of 8 booleans packed most-significant-bit
first, rendered as two hex digits per group. -/
def dhash_spec_msb (pix : Nat → Nat → Nat) (hash_size : Nat := 8) : String :=
  String.join ((chunks8 (diffBits pix hash_size)).map (fun c => hexPair (byteMsb c)))

/-- The amended packing: each group of 8 booleans packed
least-significant-bit first (input position `i` contributes `2 ^ (i % 8)`),
rendered as two hex digits per group. -/
def dhash_spec_lsb (pix : Nat → Nat → Nat) (hash_size : Nat := 8) : String :=
  String.join ((chunks8 (diffBits pix hash_size)).map (fun c => hexPair (byteLsb c)))

/-! ## Packing lemmas for `_dhash` -/

lemma packBitsAux_step (b : Bool) (rest : List Bool) (i dv : Nat) (acc : List String)
    (k : Nat) (hk : i % 8 = k) (h7 : ¬ k = 7) :
    packBitsAux (b :: rest) i dv acc =
      packBitsAux rest ( i + 1) (dv + (if b then 2 ^ k else 0)) acc := by
  simp only [packBitsAux, hk]
  rw [if_neg h7]
  congr 1
  cases b <;> simp

lemma packBitsAux_step7 (b : Bool) (rest : List Bool) (i dv : Nat) (acc : List String)
    (hk : i % 8 = 7) :
    packBitsAux (b :: rest) i dv acc =
      packBitsAux rest ( i + 1) 0 (acc ++ [hexByte (dv + (if b then 2 ^ 7 else 0))]) := by
  simp only [packBitsAux, hk, if_pos]
  congr 3
  cases b <;> simp

lemma byteLsb_eight (b0 b1 b2 b3 b4 b5 b6 b7 : Bool) :
    0 + (if b0 then 2 ^ 0 else 0) + (if b1 then 2 ^ 1 else 0) + (if b2 then 2 ^ 2 else 0) +
      (if b3 then 2 ^ 3 else 0) + (if b4 then 2 ^ 4 else 0) + (if b5 then 2 ^ 5 else 0) +
      (if b6 then 2 ^ 6 else 0) + (if b7 then 2 ^ 7 else 0) =
    byteLsb [b0, b1, b2, b3, b4, b5, b6, b7] := by
  revert b0 b1 b2 b3 b4 b5 b6 b7
  decide

lemma packBitsAux_eight (b0 b1 b2 b3 b4 b5 b6 b7 : Bool) (rest : List Bool)
    (i : Nat) (acc : List String) (hi : i % 8 = 0) :
    packBitsAux (b0 :: b1 :: b2 :: b3 :: b4 :: b5 :: b6 :: b7 :: rest) i 0 acc =
      packBitsAux rest ( i + 8) 0
        (acc ++ [hexByte (byteLsb [b0, b1, b2, b3, b4, b5, b6, b7])]) := by
  rw [packBitsAux_step b0 _ i 0 acc 0 hi (by omega),
      packBitsAux_step b1 _ _ _ _ 1 (by omega) (by omega),
      packBitsAux_step b2 _ _ _ _ 2 (by omega) (by omega),
      packBitsAux_step b3 _ _ _ _ 3 (by omega) (by omega),
      packBitsAux_step b4 _ _ _ _ 4 (by omega) (by omega),
      packBitsAux_step b5 _ _ _ _ 5 (by omega) (by omega),
      packBitsAux_step b6 _ _ _ _ 6 (by omega) (by omega),
      packBitsAux_step7 b7 _ _ _ _ (by omega),
      byteLsb_eight b0 b1 b2 b3 b4 b5 b6 b7]

theorem packBitsAux_chunks : (bs : List Bool) → (i : Nat) → (acc : List String) →
    i % 8 = 0 → bs.length % 8 = 0 →
    packBitsAux bs i 0 acc = acc ++ (chunks8 bs).map (fun c => hexByte (byteLsb c))
  | [], i, acc, _, _ => by simp [packBitsAux, chunks8]
  | b0 :: b1 :: b2 :: b3 :: b4 :: b5 :: b6 :: b7 :: rest, i, acc, hi, hl => by
    rw [packBitsAux_eight b0 b1 b2 b3 b4 b5 b6 b7 rest i acc hi]
    rw [packBitsAux_chunks rest ( i + 8) _ (by omega) (by simp at hl; omega)]
    simp [chunks8]
  | [b0], _, _, _, hl => by simp at hl
  | [b0, b1], _, _, _, hl => by simp at hl
  | [b0, b1, b2], _, _, _, hl => by simp at hl
  | [b0, b1, b2, b3], _, _, _, hl => by simp at hl
  | [b0, b1, b2, b3, b4], _, _, _, hl => by simp at hl
  | [b0, b1, b2, b3, b4, b5], _, _, _, hl => by simp at hl
  | [b0, b1, b2, b3, b4, b5, b6], _, _, _, hl => by simp at hl

lemma diffBits_length8 (pix : Nat → Nat → Nat) : (diffBits pix 8).length = 64 := rfl

lemma chunks8_diffBits_length (pix : Nat → Nat → Nat) :
    (chunks8 (diffBits pix 8)).length = 8 := rfl

lemma chunks8_mem_length : (l : List Bool) → ∀ c ∈ chunks8 l, c.length ≤ 8
  | [] => by simp [chunks8]
  | b0 :: b1 :: b2 :: b3 :: b4 :: b5 :: b6 :: b7 :: rest => by
    intro c hc
    simp only [chunks8, List.mem_cons] at hc
    rcases hc with h | h
    · simp [h]
    · exact chunks8_mem_length rest c h
  | [b0] => by intro c hc; simp [chunks8] at hc; simp [hc]
  | [b0, b1] => by intro c hc; simp [chunks8] at hc; simp [hc]
  | [b0, b1, b2] => by intro c hc; simp [chunks8] at hc; simp [hc]
  | [b0, b1, b2, b3] => by intro c hc; simp [chunks8] at hc; simp [hc]
  | [b0, b1, b2, b3, b4] => by intro c hc; simp [chunks8] at hc; simp [hc]
  | [b0, b1, b2, b3, b4, b5] => by intro c hc; simp [chunks8] at hc; simp [hc]
  | [b0, b1, b2, b3, b4, b5, b6] => by intro c hc; simp [chunks8] at hc; simp [hc]

lemma byteLsb_lt : (bs : List Bool) → byteLsb bs < 2 ^ bs.length
  | [] => by simp [byteLsb]
  | b :: bs => by
    have ih := byteLsb_lt bs
    cases b <;> simp [byteLsb, Nat.pow_succ] <;> omega

set_option maxRecDepth 100000 in
lemma hexByte_eq_hexPair : ∀ v, v < 256 → hexByte v = hexPair v := by decide

lemma length_foldl_append (l : List String) (s : String) :
    (l.foldl (fun a b => a ++ b) s).length = s.length + (l.map String.length).sum := by
  induction l generalizing s with
  | nil => simp
  | cons x xs ih => simp [ih, String.length_append]; omega

lemma length_join (l : List String) : (String.join l).length = (l.map String.length).sum := by
  simpa [String.join] using length_foldl_append l ""

lemma dhash_eq_chunked (pix : Nat → Nat → Nat) :
    dhash pix 8 = String.join ((chunks8 (diffBits pix 8)).map (fun c => hexByte (byteLsb c))) := by
  unfold dhash
  rw [packBitsAux_chunks (diffBits pix 8) 0 [] (by omega) (by rw [diffBits_length8])]
  simp

lemma hexByte_byteLsb_eq (pix : Nat → Nat → Nat) :
    ∀ c ∈ chunks8 (diffBits pix 8), hexByte (byteLsb c) = hexPair (byteLsb c) := by
  intro c hc
  have h1 : c.length ≤ 8 := chunks8_mem_length _ c hc
  have h2 : byteLsb c < 256 := by
    have hlt := byteLsb_lt c
    have hle : (2 : Nat) ^ c.length ≤ 2 ^ 8 := Nat.pow_le_pow_right (by omega) h1
    omega
  exact hexByte_eq_hexPair _ h2

lemma dhash_length16 (pix : Nat → Nat → Nat) : (dhash pix 8).length = 16 := by
  rw [dhash_eq_chunked, length_join]
  have h : ((chunks8 (diffBits pix 8)).map (fun c => hexByte (byteLsb c))).map String.length
       = (chunks8 (diffBits pix 8)).map (fun c => 2) := by
    rw [List.map_map]
    refine List.map_congr_left ?_
    intro c hc
    rw [Function.comp_apply, hexByte_byteLsb_eq pix c hc]
    rfl
  rw [h, List.map_const']
  simp [chunks8_diffBits_length]

/-- Concrete 9x8 grayscale grid: only the top-left pixel is bright, so the
very first comparison is the only `true` bit of the difference sequence. -/
def c2pix (col row : Nat) : Nat := if col = 0 ∧ row = 0 then 1 else 0

/-- **C2, counterexample.** On a grid whose only `true` difference bit is the
first one, `FileHasher._dhash` produces `"01…"` — the first input bit lands in
the LOW bit of the first byte — while the claimed most-significant-bit-first
packing would produce `"80…"`.  The claim as stated is therefore false. -/
theorem dhash_msb_counterexample :
    dhash c2pix 8 = "0100000000000000" ∧
    dhash_spec_msb c2pix 8 = "8000000000000000" ∧
    dhash c2pix 8 ≠ dhash_spec_msb c2pix 8 := by
  refine ⟨by decide, by decide, by decide⟩

/-- **C2 (amended).** For every static image (presented as its downscaled
9-column-by-8-row grayscale grid `pix`), `FileHasher._dhash` compares, for
every row, each pixel to its immediate right neighbour, and packs the
resulting 8x8 boolean sequence 8 bits at a time LEAST-significant-bit first
within each byte group (the bit at input position `i` contributes
`2 ^ (i % 8)`), each group rendered as two hex digits, giving a hexadecimal
string of length 8²/4 = 16. -/
theorem dhash_packs_bits_lsb_first (pix : Nat → Nat → Nat) :
    dhash pix 8 = dhash_spec_lsb pix 8 ∧ (dhash pix 8).length = 16 := by
  constructor
  · rw [dhash_eq_chunked, dhash_spec_lsb]
    exact congrArg String.join (List.map_congr_left (hexByte_byteLsb_eq pix))
  · exact dhash_length16 pix

/-! ## Data model: the record store and the filesystem

Shallow embedding of the SQL entities used by `Deduplicator` (`File`,
`URL`, `Hash` from the external `sql` module) and of the storage
collaborator (`SanitizedRelFile`): the store is an explicit `DB` value,
the filesystem an association list from stored path to byte size. -/

/-- A `URL` row: a source reference owned by a `File`. -/
structure URLRec where
  id : Nat
  file_id : Nat
  album_id : Option String
  processed : Bool
deriving DecidableEq

/-- A `Hash` row: the fingerprint of a `File`, with its four coarse
partition substrings `p1`-`p4` as stored at creation time. -/
structure HashRec where
  full_hash : String
  p1 : String
  p2 : String
  p3 : String
  p4 : String
deriving DecidableEq

/-- A `File` row.  `hash` is the optional one-to-one fingerprint. -/
structure FileRec where
  id : Nat
  path : String
  downloaded : Bool
  hash : Option HashRec
deriving DecidableEq

/-- The record store: all `File` rows and all `URL` rows. -/
structure DB where
  files : List FileRec
  urls : List URLRec
deriving DecidableEq

/-- Python truthiness of a `URL.album_id` column value: `None` and the
empty string are falsy, any other string is truthy. -/
def truthyAlbum : Option String → Bool
  | none => false
  | some s => !(s = "")

/-- The eagerly loaded `file.urls` relationship: every `URL` row whose
`file_id` equals the file's id. -/
def fileUrls (db : DB) (f : FileRec) : List URLRec :=
  db.urls.filter (fun u => u.file_id = f.id)

/-- The filesystem as seen through `SanitizedRelFile`: stored objects as
`(path, size)` pairs. -/
structure SysState where
  db : DB
  storage : List (String × Nat)
deriving DecidableEq

/-- `SanitizedRelFile.is_file` (external storage collaborator). -/
def is_file (storage : List (String × Nat)) (path : String) : Bool :=
  storage.any (fun p => p.1 = path)

/-- `SanitizedRelFile.size` (external storage collaborator); 0 when absent. -/
def fileSize (storage : List (String × Nat)) (path : String) : Nat :=
  match storage.find? (fun p => p.1 = path) with
  | some p => p.2
  | none => 0

/-! ## Deduplicator -/

/-- Modelled from the spec: `Hash.split_hash` lives in the external `sql`
module (not under `src/`); the spec says a fingerprint is stored together
with "four fixed-length substrings of that string (partitions) used as
coarse index keys".  We split the string into four consecutive
quarter-width substrings, the last taking any remainder. -/
def split_hash (s : String) : List String :=
  let cs := s.toList
  let w := cs.length / 4
  [String.mk (cs.take w),
   String.mk ((cs.drop w).take w),
   String.mk ((cs.drop (2 * w)).take w),
   String.mk (cs.drop (3 * w))]

/-- `Deduplicator._check_hash_match`: false when the file has no
fingerprint, or any of its source references has a truthy album id or is
unprocessed, or the Hamming distance from the search hash is 4 or more. -/
def check_hash_match (db : DB) (file : FileRec) (search_hash : String) : Bool :=
  match file.hash with
  | none => false
  | some h =>
    if (fileUrls db file).any (fun u => truthyAlbum u.album_id || !u.processed) then false
    else if 4 ≤ hamming_distance search_hash h.full_hash then false
    else true

/-- The coarse (recall-oriented) store query of
`Deduplicator._find_matching_files`: every `File` joined to a `Hash` row
whose full hash equals the search hash or shares one of its four
partitions.  The join on `File.hash` drops files with no fingerprint. -/
def coarse_candidates (db : DB) (search_hash : String) : List FileRec :=
  let sp := split_hash search_hash
  db.files.filter (fun f =>
    match f.hash with
    | none => false
    | some h =>
        (h.full_hash = search_hash : Bool) || h.p1 = sp[0]! || h.p2 = sp[1]! ||
          h.p3 = sp[2]! || h.p4 = sp[3]!)

/-- `Deduplicator._find_matching_files`.  Note that, as in the source, the
`ignore_id` parameter is not consulted anywhere in the body. -/
def find_matching_files (db : DB) (search_hash : String) (ignore_id : Nat) : List FileRec :=
  let _ := ignore_id
  (coarse_candidates db search_hash).filter (fun f => check_hash_match db f search_hash)

/-- Stable insertion into a list sorted by `size` descending: skip over
strictly larger keys, land before the first key less than or equal. -/
def insertDesc (size : FileRec → Nat) (x : FileRec) : List FileRec → List FileRec
  | [] => [x]
  | y :: ys => if size x < size y then y :: insertDesc size x ys else x :: y :: ys

/-- Stable sort by `size` descending.  Python's `sorted(key=..., reverse=True)`
in `_choose_best_file` is a stable descending sort, and a stable sort's output
is uniquely determined by the key order and the input order, so this stable
insertion sort computes the same list. -/
def sortByDesc (size : FileRec → Nat) : List FileRec → List FileRec
  | [] => []
  | x :: xs => insertDesc size x (sortByDesc size xs)

/-- `Deduplicator._choose_best_file`: sort by underlying storage size
descending, return the head and the rest.  `size f` models
`SanitizedRelFile(base, f.path).size()`.  `none` models the `IndexError`
the source would raise on an empty list. -/
def choose_best_file (size : FileRec → Nat) (files : List FileRec) :
    Option (FileRec × List FileRec) :=
  match sortByDesc size files with
  | [] => none
  | best :: others => some (best, others)

/-- `Deduplicator._upgrade_file`: reassign every `URL` row of `old_file`
to `new_file`, then delete `old_file`'s stored object if it is present. -/
def upgrade_file (st : SysState) (new_file old_file : FileRec) : SysState :=
  let urls := st.db.urls.map (fun u =>
    if u.file_id = old_file.id then { u with file_id := new_file.id } else u)
  let storage :=
    if is_file st.storage old_file.path then
      st.storage.filter (fun p => !(p.1 = old_file.path))
    else st.storage
  { db := { files := st.db.files, urls := urls }, storage := storage }

/-- `Deduplicator._prune`: delete every `File` row with no remaining `URL`
row, returning the updated store and the number of deleted rows (the value
of `.delete(...)`). -/
def prune (db : DB) : DB × Nat :=
  ({ files := db.files.filter (fun f => db.urls.any (fun u => u.file_id = f.id)),
     urls := db.urls },
   db.files.countP (fun f => !(db.urls.any (fun u => u.file_id = f.id))))

/-- The duplicate-resolution block of `Deduplicator._dedupe` (lines 78-83)
for one match set: pick the best file, `_upgrade_file` each loser in order,
then `_prune` the store (in the source the prune runs once at the end of
the sweep pass; its effect on this match set is the same). -/
def dedupe_merge (st : SysState) (files : List FileRec) : SysState :=
  match choose_best_file (fun f => fileSize st.storage f.path) files with
  | none => st
  | some (best, others) =>
    let st2 := others.foldl (fun s o => upgrade_file s best o) st
    { st2 with db := (prune st2.db).1 }

/-! ## FileHasher: hash routing (`get_best_hash`) -/

/-- A PIL image as far as `FileHasher` observes it: `frames` is the number
of frames (`image.seek(1)` succeeds exactly when there is a second frame),
`pix` is the grayscale `(hash_size+1) x hash_size` downscaled grid that
`convert`/`resize` would produce for `_dhash`. -/
structure PILImage where
  frames : Nat
  pix : Nat → Nat → Nat

/-- A file on disk as far as `FileHasher` observes it: `content` is the
byte stream (`none` when opening for read raises `IOError`), `image` is
the decoded image (`none` when `Image.open` raises `IOError`). -/
structure DiskFile where
  content : Option (List Nat)
  image : Option PILImage

/-- Modelled at the interface of `hashlib.sha1(...).hexdigest()` (external
library): an executable stand-in producing a 40-character lowercase-hex
digest of the byte stream.  The claims depend only on the output length
and on which hash family a file is routed to, never on SHA-1 itself. -/
def sha1_hexdigest (bs : List Nat) : String :=
  String.mk ((List.range 40).map (fun i =>
    hexChar ((bs.foldl (fun a b => (a * 31 + b) % 1000000007) i) % 16)))

/-- `FileHasher._sha_hash`: the streamed content digest, or `None` when the
file cannot be opened for reading (`IOError`). -/
def sha_hash (f : DiskFile) : Option String :=
  f.content.map sha1_hexdigest

/-- `FileHasher._is_animated`: `image.seek(1)` succeeds (no exception)
exactly when the image has a second frame. -/
def is_animated (image : PILImage) : Bool :=
  2 ≤ image.frames

/-- `FileHasher.get_best_hash`: decode failure falls back to the content
digest; an animated image uses the content digest; a static image uses the
difference hash. -/
def get_best_hash (f : DiskFile) : Option String :=
  match f.image with
  | some image =>
    if is_animated image then sha_hash f
    else some (dhash image.pix 8)
  | none => sha_hash f

/-! ## C5: unequal-length fingerprints never match -/

/-- **C5.** For every pair of strings of unequal lengths,
`FileHasher.hamming_distance` returns the sentinel 9999, which is strictly
greater than the match threshold 4; consequently `_check_hash_match`
reports no match for a candidate whose stored fingerprint has a different
length from the query fingerprint. -/
theorem hamming_unequal_lengths_sentinel (s1 s2 : String) (h : s1.length ≠ s2.length) :
    hamming_distance s1 s2 = 9999 ∧ 4 < hamming_distance s1 s2 ∧
    ∀ (db : DB) (f : FileRec) (hr : HashRec),
      f.hash = some hr → hr.full_hash = s2 → check_hash_match db f s1 = false := by
  have h1 : hamming_distance s1 s2 = 9999 := by simp [hamming_distance, h]
  refine ⟨h1, by omega, ?_⟩
  intro db f hr hf hfull
  unfold check_hash_match
  rw [hf]
  by_cases hany : (fileUrls db f).any (fun u => truthyAlbum u.album_id || !u.processed)
  · simp [hany]
  · simp [hany, hfull, h1]

/-- **C5, witness.** Comparing a hex fingerprint of length 2 with one of
length 1 yields the sentinel. -/
theorem hamming_unequal_lengths_sentinel_witness :
    ("ab" : String).length ≠ ("a" : String).length ∧ hamming_distance "ab" "a" = 9999 :=
  ⟨by decide, (hamming_unequal_lengths_sentinel "ab" "a" (by decide)).1⟩

/-! ## C3: the precision filter -/

/-- **C3.** `_check_hash_match` rejects a candidate exactly when it has no
fingerprint, or one of its source references has a (truthy) album id or is
unprocessed, or the Hamming distance between the full fingerprints is 4 or
more; and `_find_matching_files` returns exactly the coarse candidates that
pass this check. -/
theorem check_hash_match_filter (db : DB) (f : FileRec) (s : String) (i : Nat) :
    (check_hash_match db f s = false ↔
      (f.hash = none ∨
       (∃ u ∈ fileUrls db f, truthyAlbum u.album_id = true ∨ u.processed = false) ∨
       (∃ h, f.hash = some h ∧ 4 ≤ hamming_distance s h.full_hash))) ∧
    (f ∈ find_matching_files db s i ↔
      (f ∈ coarse_candidates db s ∧ check_hash_match db f s = true)) := by
  constructor
  · have hiff : (fileUrls db f).any (fun u => truthyAlbum u.album_id || !u.processed) = true ↔
        ∃ u ∈ fileUrls db f, truthyAlbum u.album_id = true ∨ u.processed = false := by
      simp [List.any_eq_true, Bool.or_eq_true, Bool.not_eq_true']
    cases hh : f.hash with
    | none => simp [check_hash_match, hh]
    | some h2 =>
      simp only [check_hash_match, hh]
      by_cases hany : (fileUrls db f).any (fun u => truthyAlbum u.album_id || !u.processed) = true
      · simp [hany, hiff.mp hany]
      · by_cases hham : 4 ≤ hamming_distance s h2.full_hash
        · simp [hany, hham]
        · simp [hany, hham]
          intro u hu
          have hn : ¬ ((fileUrls db f).any fun v => truthyAlbum v.album_id || !v.processed) = true := hany
          rw [List.any_eq_true] at hn
          push_neg at hn
          have h3 := hn u hu
          simp at h3
          exact h3
  · simp [find_matching_files, List.mem_filter]

/-! ## C8: the orphan pruner is idempotent -/

/-- **C8.** One `_prune` deletes exactly the `File` rows with zero source
references (a file survives iff some `URL` row still points at it), leaves
the `URL` rows untouched, and an immediately repeated `_prune` deletes
zero rows. -/
theorem prune_orphans_idempotent (db : DB) :
    (∀ f ∈ db.files,
       (f ∈ (prune db).1.files ↔ db.urls.any (fun u => u.file_id = f.id) = true)) ∧
    (prune db).1.urls = db.urls ∧
    (prune (prune db).1).2 = 0 := by
  refine ⟨?_, rfl, ?_⟩
  · intro f hf
    simp [prune, List.mem_filter, hf]
  · show List.countP _ _ = 0
    rw [List.countP_eq_zero]
    intro f hf
    simp only [prune, List.mem_filter] at hf
    simp only [prune]
    simp [hf.2]

/-- A store with one orphan file (id 2) and one referenced file (id 1). -/
def c8DB : DB :=
  { files := [{ id := 1, path := "a", downloaded := true, hash := none },
              { id := 2, path := "b", downloaded := true, hash := none }],
    urls := [{ id := 1, file_id := 1, album_id := none, processed := true }] }

/-- **C8, witness.** On a concrete store the second consecutive `_prune`
deletes zero rows. -/
theorem prune_orphans_idempotent_witness : (prune (prune c8DB).1).2 = 0 :=
  (prune_orphans_idempotent c8DB).2.2

/-! ## Sorting lemmas for `_choose_best_file` -/

lemma insertDesc_perm (size : FileRec → Nat) (x : FileRec) :
    (l : List FileRec) → List.Perm (insertDesc size x l) (x :: l)
  | [] => List.Perm.refl _
  | y :: ys => by
    unfold insertDesc
    by_cases h : size x < size y
    · rw [if_pos h]
      exact ((insertDesc_perm size x ys).cons y).trans (List.Perm.swap x y ys)
    · rw [if_neg h]

lemma sortByDesc_perm (size : FileRec → Nat) :
    (l : List FileRec) → List.Perm (sortByDesc size l) l
  | [] => List.Perm.refl _
  | x :: xs =>
    (insertDesc_perm size x (sortByDesc size xs)).trans ((sortByDesc_perm size xs).cons x)

lemma choose_best_file_perm_of_eq (size : FileRec → Nat) (files : List FileRec)
    (best : FileRec) (others : List FileRec)
    (h : choose_best_file size files = some (best, others)) :
    List.Perm (best :: others) files := by
  unfold choose_best_file at h
  cases hs : sortByDesc size files with
  | nil => rw [hs] at h; exact absurd h (by simp)
  | cons b os =>
    rw [hs] at h
    simp only [Option.some.injEq, Prod.mk.injEq] at h
    obtain ⟨h1, h2⟩ := h
    subst h1
    subst h2
    rw [← hs]
    exact sortByDesc_perm size files

lemma sortByDesc_head_spec (size : FileRec → Nat) :
    (l : List FileRec) → (b : FileRec) → (rest : List FileRec) →
    sortByDesc size l = b :: rest →
    (∀ f ∈ l, size f ≤ size b) ∧
    ∃ l1 l2, l = l1 ++ b :: l2 ∧ ∀ f ∈ l1, size f < size b
  | [], b, rest, h => by simp [sortByDesc] at h
  | x :: xs, b, rest, h => by
    rw [sortByDesc] at h
    cases hs : sortByDesc size xs with
    | nil =>
      have hxs : xs = [] := by
        have hp := sortByDesc_perm size xs
        rw [hs] at hp
        exact (hp.symm.eq_nil)
      rw [hs] at h
      unfold insertDesc at h
      simp only [List.cons.injEq] at h
      obtain ⟨hb, _⟩ := h
      subst hb
      subst hxs
      exact ⟨by simp, [], [], by simp, by simp⟩
    | cons y ys =>
      have IH := sortByDesc_head_spec size xs y ys hs
      rw [hs] at h
      unfold insertDesc at h
      by_cases hlt : size x < size y
      · rw [if_pos hlt] at h
        simp only [List.cons.injEq] at h
        obtain ⟨hb, _⟩ := h
        subst hb
        refine ⟨?_, ?_⟩
        · intro f hf
          rcases List.mem_cons.mp hf with hfx | hfxs
          · subst hfx; omega
          · exact IH.1 f hfxs
        · obtain ⟨l1, l2, hdec, hstrict⟩ := IH.2
          exact ⟨x :: l1, l2, by rw [hdec]; simp, by
            intro f hf
            rcases List.mem_cons.mp hf with hfx | hfl1
            · subst hfx; omega
            · exact hstrict f hfl1⟩
      · rw [if_neg hlt] at h
        simp only [List.cons.injEq] at h
        obtain ⟨hb, _⟩ := h
        subst hb
        refine ⟨?_, [], xs, rfl, by simp⟩
        intro f hf
        rcases List.mem_cons.mp hf with hfx | hfxs
        · subst hfx; omega
        · have := IH.1 f hfxs
          omega

/-! ## C4: the largest file survives, stably -/

/-- **C4.** For every non-empty match set, `_choose_best_file` succeeds and
picks as survivor a file of maximal underlying storage size; on ties the
survivor is the earliest such file in the pre-existing order (every file
strictly before it in the input is strictly smaller). -/
theorem choose_best_file_picks_largest (size : FileRec → Nat) (files : List FileRec)
    (hne : files ≠ []) :
    ∃ best others, choose_best_file size files = some (best, others) ∧
      best ∈ files ∧ (∀ f ∈ files, size f ≤ size best) ∧
      ∃ l1 l2, files = l1 ++ best :: l2 ∧ ∀ f ∈ l1, size f < size best := by
  cases hs : sortByDesc size files with
  | nil =>
    have hp := sortByDesc_perm size files
    rw [hs] at hp
    exact absurd hp.symm.eq_nil hne
  | cons b os =>
    have hspec := sortByDesc_head_spec size files b os hs
    obtain ⟨l1, l2, hdec, hstrict⟩ := hspec.2
    refine ⟨b, os, ?_, ?_, hspec.1, l1, l2, hdec, hstrict⟩
    · unfold choose_best_file
      rw [hs]
    · rw [hdec]
      exact List.mem_append_right l1 (List.mem_cons_self b l2)

/-- Concrete storage for the {10, 50, 30}-byte scenario of the spec. -/
def exStorage : List (String × Nat) := [("a", 10), ("b", 50), ("c", 30)]

/-- Sizes read off `exStorage`, as `_choose_best_file` reads them from disk. -/
def exSize (f : FileRec) : Nat := fileSize exStorage f.path

def exA : FileRec := { id := 1, path := "a", downloaded := true, hash := none }

def exB : FileRec := { id := 2, path := "b", downloaded := true, hash := none }

def exC : FileRec := { id := 3, path := "c", downloaded := true, hash := none }

/-- **C4, witness.** With three matching files of sizes {10, 50, 30}, the
size-50 file is the survivor and the other two are the losers. -/
theorem choose_best_file_picks_largest_witness :
    ([exA, exB, exC] : List FileRec) ≠ [] ∧
    choose_best_file exSize [exA, exB, exC] = some (exB, [exC, exA]) ∧
    exSize exB = 50 ∧
    (∃ best others, choose_best_file exSize [exA, exB, exC] = some (best, others) ∧
      best ∈ [exA, exB, exC] ∧ (∀ f ∈ [exA, exB, exC], exSize f ≤ exSize best) ∧
      ∃ l1 l2, ([exA, exB, exC] : List FileRec) = l1 ++ best :: l2 ∧
        ∀ f ∈ l1, exSize f < exSize best) :=
  ⟨by decide, by decide, by decide,
   choose_best_file_picks_largest exSize [exA, exB, exC] (by decide)⟩

/-! ## C10: survivor and losers are a permutation of the input -/

/-- **C10.** For every list on which `_choose_best_file` succeeds, the
survivor followed by the losers is a permutation of the input list: no
file is dropped or duplicated. -/
theorem choose_best_file_is_permutation (size : FileRec → Nat) (files : List FileRec)
    (best : FileRec) (others : List FileRec)
    (h : choose_best_file size files = some (best, others)) :
    List.Perm (best :: others) files :=
  choose_best_file_perm_of_eq size files best others h

/-- **C10, witness.** On the {10, 50, 30} scenario the returned pair
reassembles to a permutation of the input. -/
theorem choose_best_file_is_permutation_witness :
    List.Perm ([exB, exC, exA] : List FileRec) [exA, exB, exC] :=
  choose_best_file_is_permutation exSize [exA, exB, exC] exB [exC, exA] (by decide)

/-! ## Merge lemmas for `_upgrade_file` and `_dedupe` -/

lemma upgrade_file_urls (st : SysState) (best o : FileRec) :
    (upgrade_file st best o).db.urls =
      st.db.urls.map (fun u =>
        if u.file_id = o.id then { u with file_id := best.id } else u) := rfl

lemma upgrade_file_files (st : SysState) (best o : FileRec) :
    (upgrade_file st best o).db.files = st.db.files := rfl

lemma upgrade_file_storage (st : SysState) (best o : FileRec) :
    (upgrade_file st best o).storage = st.storage.filter (fun p => !(p.1 = o.path)) := by
  unfold upgrade_file
  by_cases h : is_file st.storage o.path = true
  · simp only [h, if_true]
  · simp only [Bool.not_eq_true] at h
    simp only [h, Bool.false_eq_true, if_false]
    symm
    rw [List.filter_eq_self]
    intro p hp
    unfold is_file at h
    rw [List.any_eq_false] at h
    simpa using h p hp

lemma foldl_upgrade_files (best : FileRec) :
    (others : List FileRec) → (st : SysState) →
    (others.foldl (fun s o => upgrade_file s best o) st).db.files = st.db.files
  | [], _ => rfl
  | o :: rest, st => by
    rw [List.foldl_cons]
    exact foldl_upgrade_files best rest (upgrade_file st best o)

lemma foldl_upgrade_urls (best : FileRec) :
    (others : List FileRec) → (st : SysState) →
    (∀ o ∈ others, ¬ best.id = o.id) →
    (others.foldl (fun s o => upgrade_file s best o) st).db.urls =
      st.db.urls.map (fun u =>
        if others.any (fun o => u.file_id = o.id) then { u with file_id := best.id } else u)
  | [], st, _ => by simp
  | o :: rest, st, hb => by
    rw [List.foldl_cons,
        foldl_upgrade_urls best rest (upgrade_file st best o)
          (fun o2 h2 => hb o2 (List.mem_cons_of_mem o h2)),
        upgrade_file_urls, List.map_map]
    refine List.map_congr_left ?_
    intro u _
    simp only [Function.comp_apply]
    by_cases h : u.file_id = o.id
    · rw [if_pos h]
      have hrest : rest.any
          (fun o2 => ({ u with file_id := best.id } : URLRec).file_id = o2.id) = false := by
        rw [List.any_eq_false]
        intro o2 ho2
        simpa using hb o2 (List.mem_cons_of_mem o ho2)
      rw [if_neg (by simp [hrest]), if_pos (by simp [List.any_cons, h])]
    · simp only [if_neg h]
      by_cases hr : rest.any (fun o2 => u.file_id = o2.id) = true
      · rw [if_pos hr, if_pos (by simp [List.any_cons, hr])]
      · rw [if_neg hr, if_neg (by simp [List.any_cons, h, hr])]

lemma foldl_upgrade_storage_absent (best : FileRec) :
    (others : List FileRec) → (st : SysState) → (q : String) →
    is_file st.storage q = false →
    is_file (others.foldl (fun s o => upgrade_file s best o) st).storage q = false
  | [], _, _, h => h
  | o :: rest, st, q, h => by
    rw [List.foldl_cons]
    refine foldl_upgrade_storage_absent best rest (upgrade_file st best o) q ?_
    rw [upgrade_file_storage]
    unfold is_file at h ⊢
    rw [List.any_eq_false] at h ⊢
    intro p hp
    exact h p (List.mem_of_mem_filter hp)

lemma foldl_upgrade_storage_loser_absent (best : FileRec) :
    (others : List FileRec) → (st : SysState) → (o : FileRec) → o ∈ others →
    is_file (others.foldl (fun s o2 => upgrade_file s best o2) st).storage o.path = false
  | [], _, _, ho => absurd ho (List.not_mem_nil _)
  | o1 :: rest, st, o, ho => by
    rw [List.foldl_cons]
    rcases List.mem_cons.mp ho with h1 | h2
    · subst h1
      refine foldl_upgrade_storage_absent best rest (upgrade_file st best o) o.path ?_
      rw [upgrade_file_storage]
      unfold is_file
      rw [List.any_eq_false]
      intro p hp
      rw [List.mem_filter] at hp
      simpa using hp.2
    · exact foldl_upgrade_storage_loser_absent best rest (upgrade_file st best o1) o h2

/-! ## C1: losers are reassigned, their objects and records deleted -/

/-- **C1.** For every match set with pairwise distinct record ids on which
`_choose_best_file` picks `best` and `others`, the merge block of
`_dedupe` (upgrade each loser, then prune) gives, for every loser: every
one of its source references now carried by the survivor (same row, file
id rewritten to the survivor's), no remaining reference to the loser, the
loser's stored object absent from storage, and no `File` row with the
loser's id left in the store. -/
theorem dedupe_merge_resolves_losers (st : SysState) (files : List FileRec)
    (best : FileRec) (others : List FileRec)
    (hchoose : choose_best_file (fun f => fileSize st.storage f.path) files
        = some (best, others))
    (hnd : (files.map FileRec.id).Nodup) :
    ∀ o ∈ others,
      (∀ u ∈ st.db.urls, u.file_id = o.id →
         { u with file_id := best.id } ∈ (dedupe_merge st files).db.urls) ∧
      (∀ u ∈ (dedupe_merge st files).db.urls, ¬ u.file_id = o.id) ∧
      is_file (dedupe_merge st files).storage o.path = false ∧
      (∀ f ∈ (dedupe_merge st files).db.files, ¬ f.id = o.id) := by
  have hperm := choose_best_file_perm_of_eq _ files best others hchoose
  have hnd2 : ((best :: others).map FileRec.id).Nodup :=
    (List.Perm.nodup_iff (hperm.map FileRec.id)).mpr hnd
  have hb : ∀ o ∈ others, ¬ best.id = o.id := by
    intro o ho heq
    rw [List.map_cons, List.nodup_cons] at hnd2
    exact hnd2.1 (by rw [heq]; exact List.mem_map_of_mem FileRec.id ho)
  have hunf : dedupe_merge st files =
      { db := (prune ((others.foldl (fun s o2 => upgrade_file s best o2) st).db)).1,
        storage := (others.foldl (fun s o2 => upgrade_file s best o2) st).storage } := by
    unfold dedupe_merge
    rw [hchoose]
  have hurls : (dedupe_merge st files).db.urls =
      st.db.urls.map (fun u =>
        if others.any (fun o2 => u.file_id = o2.id) then { u with file_id := best.id }
        else u) := by
    rw [hunf]
    show (others.foldl (fun s o2 => upgrade_file s best o2) st).db.urls = _
    exact foldl_upgrade_urls best others st hb
  intro o ho
  have hBo : ¬ best.id = o.id := hb o ho
  have h2 : ∀ u ∈ (dedupe_merge st files).db.urls, ¬ u.file_id = o.id := by
    intro u hu
    rw [hurls, List.mem_map] at hu
    obtain ⟨v, hv, hvu⟩ := hu
    by_cases hc : others.any (fun o2 => v.file_id = o2.id) = true
    · rw [if_pos hc] at hvu
      intro heq
      rw [← hvu] at heq
      exact hBo (by simpa using heq)
    · rw [if_neg hc] at hvu
      subst hvu
      intro heq
      rw [Bool.not_eq_true, List.any_eq_false] at hc
      have hvo := hc o ho
      simp at hvo
      exact hvo heq
  refine ⟨?_, h2, ?_, ?_⟩
  · intro u hu hufid
    rw [hurls]
    refine List.mem_map.mpr ⟨u, hu, ?_⟩
    rw [if_pos (List.any_eq_true.mpr ⟨o, ho, by simp [hufid]⟩)]
  · rw [hunf]
    exact foldl_upgrade_storage_loser_absent best others st o ho
  · intro f hf heq
    rw [hunf] at hf
    have hf2 : f ∈ ((others.foldl (fun s o2 => upgrade_file s best o2) st).db.files).filter
        (fun f2 => (others.foldl (fun s o2 => upgrade_file s best o2) st).db.urls.any
          (fun u => u.file_id = f2.id)) := hf
    simp only [List.mem_filter, List.any_eq_true, decide_eq_true_eq] at hf2
    obtain ⟨u, hu, huf⟩ := hf2.2
    have hu2 : u ∈ (dedupe_merge st files).db.urls := by
      rw [hunf]
      exact hu
    exact h2 u hu2 (by rw [huf, heq])

/-- Concrete system state for the merge scenario: the three files of sizes
{10, 50, 30}, one processed source reference each, all objects on disk. -/
def exSt : SysState :=
  { db := { files := [exA, exB, exC],
            urls := [{ id := 1, file_id := 1, album_id := none, processed := true },
                     { id := 2, file_id := 2, album_id := none, processed := true },
                     { id := 3, file_id := 3, album_id := none, processed := true }] },
    storage := exStorage }

/-- **C1, witness.** On the concrete three-file state, both losers (the
size-30 and size-10 files) have their references moved to the survivor,
their stored objects removed and their records pruned. -/
theorem dedupe_merge_resolves_losers_witness :
    ((∀ u ∈ exSt.db.urls, u.file_id = exC.id →
         { u with file_id := exB.id } ∈ (dedupe_merge exSt [exA, exB, exC]).db.urls) ∧
      (∀ u ∈ (dedupe_merge exSt [exA, exB, exC]).db.urls, ¬ u.file_id = exC.id) ∧
      is_file (dedupe_merge exSt [exA, exB, exC]).storage exC.path = false ∧
      (∀ f ∈ (dedupe_merge exSt [exA, exB, exC]).db.files, ¬ f.id = exC.id)) ∧
    ((∀ u ∈ exSt.db.urls, u.file_id = exA.id →
         { u with file_id := exB.id } ∈ (dedupe_merge exSt [exA, exB, exC]).db.urls) ∧
      (∀ u ∈ (dedupe_merge exSt [exA, exB, exC]).db.urls, ¬ u.file_id = exA.id) ∧
      is_file (dedupe_merge exSt [exA, exB, exC]).storage exA.path = false ∧
      (∀ f ∈ (dedupe_merge exSt [exA, exB, exC]).db.files, ¬ f.id = exA.id)) :=
  ⟨dedupe_merge_resolves_losers exSt [exA, exB, exC] exB [exC, exA]
      (by decide) (by decide) exC (by decide),
   dedupe_merge_resolves_losers exSt [exA, exB, exC] exB [exC, exA]
      (by decide) (by decide) exA (by decide)⟩

/-! ## C6: the `ignore_id` parameter of `_find_matching_files` -/

/-- A stored fingerprint with its four partition substrings. -/
def c6Hash : HashRec :=
  { full_hash := "0123456789abcdef", p1 := "0123", p2 := "4567", p3 := "89ab", p4 := "cdef" }

/-- A file that already has that fingerprint, id 1. -/
def c6File : FileRec := { id := 1, path := "x", downloaded := true, hash := some c6Hash }

/-- A store with just that file and one processed, album-free reference. -/
def c6DB : DB :=
  { files := [c6File],
    urls := [{ id := 1, file_id := 1, album_id := none, processed := true }] }

/-- **C6, counterexample.** `_find_matching_files` never consults its
`ignore_id` parameter: searching with `ignore_id = 1` still returns the
file whose id is 1, because its stored fingerprint matches the search
hash.  The claim that the excluded id is never returned "regardless of
that File's stored fingerprint state" is false on the code. -/
theorem find_matching_files_ignores_ignore_id :
    c6File ∈ find_matching_files c6DB "0123456789abcdef" 1 ∧ c6File.id = 1 :=
  ⟨by decide, rfl⟩

/-- **C6 (amended).** `_find_matching_files` never returns a File without a
stored fingerprint.  In the deduplication pass the queried file's
fingerprint is assigned only after this query, so the queried file itself
is excluded for that reason alone; the `ignore_id` parameter is unused,
and a File whose id equals it IS returned once it has a matching stored
fingerprint (see the counterexample). -/
theorem find_matching_files_requires_hash (db : DB) (s : String) (i : Nat) (f : FileRec)
    (h : f ∈ find_matching_files db s i) : f.hash.isSome = true := by
  unfold find_matching_files at h
  rw [List.mem_filter] at h
  have hc := h.2
  unfold check_hash_match at hc
  cases hh : f.hash with
  | none => rw [hh] at hc; simp at hc
  | some h2 => simp [hh]

/-- **C6, witness.** Applying the amended theorem to the concrete store:
the returned file indeed carries a fingerprint. -/
theorem find_matching_files_requires_hash_witness : c6File.hash.isSome = true :=
  find_matching_files_requires_hash c6DB "0123456789abcdef" 1 c6File (by decide)

/-! ## C7: totality of `get_best_hash` -/

/-- A path that can be neither decoded nor opened for reading. -/
def c7Unreadable : DiskFile := { content := none, image := none }

/-- **C7, counterexample.** For a path whose bytes cannot be read,
`get_best_hash` returns no string at all: `Image.open` raises `IOError`,
and the `_sha_hash` fallback catches its own `IOError` and returns `None`
(lines 206-207 of the source).  The claim's "for every file path ...
returns a fixed-length string" is therefore false on the code. -/
theorem get_best_hash_unreadable_none : get_best_hash c7Unreadable = none := rfl

lemma sha1_hexdigest_length (bs : List Nat) : (sha1_hexdigest bs).length = 40 := by
  simp [sha1_hexdigest, String.length]

/-- **C7 (amended).** For every READABLE file path, `get_best_hash`
returns a fixed-length string: the 16-character perceptual difference
hash exactly when the file decodes to a static (single-frame) image, and
otherwise — decode failure or an animated image, and only then — the
40-character cryptographic content digest; a decode failure is recovered
locally by the cryptographic fallback and is never surfaced to the
caller. -/
theorem get_best_hash_readable_total (f : DiskFile) (bs : List Nat)
    (hc : f.content = some bs) :
    ∃ s, get_best_hash f = some s ∧
      ((∃ img, f.image = some img ∧ is_animated img = false ∧
          s = dhash img.pix 8 ∧ s.length = 16) ∨
       ((∀ img, f.image = some img → is_animated img = true) ∧
          s = sha1_hexdigest bs ∧ s.length = 40)) := by
  cases hi : f.image with
  | none =>
    refine ⟨sha1_hexdigest bs, by simp [get_best_hash, hi, sha_hash, hc],
            Or.inr ⟨?_, rfl, sha1_hexdigest_length bs⟩⟩
    intro img h
    exact absurd h (by simp)
  | some img =>
    by_cases ha : is_animated img = true
    · refine ⟨sha1_hexdigest bs, by simp [get_best_hash, hi, ha, sha_hash, hc],
              Or.inr ⟨?_, rfl, sha1_hexdigest_length bs⟩⟩
      intro img2 h
      have himg : img = img2 := by injection h
      rw [← himg]
      exact ha
    · rw [Bool.not_eq_true] at ha
      exact ⟨dhash img.pix 8, by simp [get_best_hash, hi, ha],
             Or.inl ⟨img, rfl, ha, rfl, dhash_length16 img.pix⟩⟩

/-- A readable, decodable, single-frame (static) image file. -/
def c7Static : DiskFile :=
  { content := some [1, 2, 3], image := some { frames := 1, pix := fun _ _ => 0 } }

/-- **C7, witness.** The amended theorem applied to a concrete readable
static image. -/
theorem get_best_hash_readable_total_witness :
    c7Static.content = some [1, 2, 3] ∧
    ∃ s, get_best_hash c7Static = some s ∧
      ((∃ img, c7Static.image = some img ∧ is_animated img = false ∧
          s = dhash img.pix 8 ∧ s.length = 16) ∨
       ((∀ img, c7Static.image = some img → is_animated img = true) ∧
          s = sha1_hexdigest [1, 2, 3] ∧ s.length = 40)) :=
  ⟨rfl, get_best_hash_readable_total c7Static [1, 2, 3] rfl⟩

/-! ## C9: animated images route to the cryptographic hash -/

/-- **C9.** For every file that decodes to a multi-frame image,
`get_best_hash` returns exactly what `_sha_hash` returns — the
cryptographic content digest of the file's bytes — and never the
perceptual difference hash (any returned string has length 40, while
every `_dhash` output has length 16). -/
theorem animated_image_routes_to_sha (f : DiskFile) (img : PILImage)
    (hi : f.image = some img) (hanim : 2 ≤ img.frames) :
    get_best_hash f = sha_hash f ∧
    (∀ bs, f.content = some bs → get_best_hash f = some (sha1_hexdigest bs)) ∧
    (∀ s, get_best_hash f = some s →
       s.length = 40 ∧ ∀ q : Nat → Nat → Nat, ¬ s = dhash q 8) := by
  have ha : is_animated img = true := by simp [is_animated, hanim]
  have h1 : get_best_hash f = sha_hash f := by simp [get_best_hash, hi, ha]
  refine ⟨h1, ?_, ?_⟩
  · intro bs hbs
    rw [h1]
    simp [sha_hash, hbs]
  · intro s hs
    rw [h1] at hs
    unfold sha_hash at hs
    cases hcont : f.content with
    | none => rw [hcont] at hs; exact absurd hs (by simp)
    | some bs =>
      rw [hcont] at hs
      simp only [Option.map_some', Option.some.injEq] at hs
      subst hs
      refine ⟨sha1_hexdigest_length bs, ?_⟩
      intro q hq
      have h16 := dhash_length16 q
      rw [← hq] at h16
      rw [sha1_hexdigest_length bs] at h16
      omega

/-- A readable three-frame (animated) image file. -/
def c9Animated : DiskFile :=
  { content := some [7, 8], image := some { frames := 3, pix := fun _ _ => 0 } }

/-- **C9, witness.** The routing theorem applied to a concrete animated
file. -/
theorem animated_image_routes_to_sha_witness :
    get_best_hash c9Animated = sha_hash c9Animated ∧
    (∀ bs, c9Animated.content = some bs →
       get_best_hash c9Animated = some (sha1_hexdigest bs)) ∧
    (∀ s, get_best_hash c9Animated = some s →
       s.length = 40 ∧ ∀ q : Nat → Nat → Nat, ¬ s = dhash q 8) :=
  animated_image_routes_to_sha c9Animated { frames := 3, pix := fun _ _ => 0 } rfl
    (by decide)
